import Mathlib

/-!
Verification development for the krxusd market-data service.

The Python sources are shallowly embedded:
* calendar dates are day numbers (`ℤ`, days since 1970-01-01, via `daysFromCivil`);
* decimal prices and FX rates are rationals (`ℚ`);
* the relational tables touched by the sync engine are explicit record states;
* external collaborators (price providers, the FX provider, Redis) are
  oracle parameters of the functions that call them.

Each embedded definition mirrors one function of the source tree; the
theorems at the end of the file settle the specification claims.
-/

/-- Day number of a civil date (days since 1970-01-01).  Standard
days-from-civil computation; all intermediate quantities are non-negative
for the years used here, so euclidean division agrees with the usual
truncating arithmetic. -/
def daysFromCivil (y m d : ℤ) : ℤ :=
  let y2 := if m ≤ 2 then y - 1 else y
  let era := (if 0 ≤ y2 then y2 else y2 - 399) / 400
  let yoe := y2 - era * 400
  let mp := (m + 9) % 12
  let doy := (153 * mp + 2) / 5 + d - 1
  let doe := yoe * 365 + yoe / 4 - yoe / 100 + doy
  era * 146097 + doe - 719468

/-- Nearest integer to a rational, ties to even (the rounding mode of
Python `Decimal` quantisation, used by `round(x, n)` on decimals). -/
def roundHalfEven (x : ℚ) : ℤ :=
  let f := ⌊x⌋
  if 2 * (x - f) < 1 then f
  else if 1 < 2 * (x - f) then f + 1
  else if f % 2 = 0 then f else f + 1

/-- `round(x, 4)` of the sources: round to 4 decimal places. -/
def round4 (x : ℚ) : ℚ := (roundHalfEven (x * 10000) : ℚ) / 10000

/-- `round(x, 2)` of the sources: round to 2 decimal places. -/
def round2 (x : ℚ) : ℚ := (roundHalfEven (x * 100) : ℚ) / 100

/-! ## Data model (src/api/models/stock.py, src/api/models/exchange.py) -/

/-- One provider daily bar, as produced by
`StockDataService._fetch_historical_from_fdr` / `_fetch_historical_from_yfinance`. -/
structure Bar where
  price_date : ℤ
  open_price : ℚ
  high_price : ℚ
  low_price : ℚ
  close_price : ℚ
  volume : ℤ
deriving DecidableEq, Repr

/-- One stored `StockPrice` row (table `stock_prices`). -/
structure PriceRow where
  price_date : ℤ
  open_price : ℚ
  high_price : ℚ
  low_price : ℚ
  close_price : ℚ
  volume : ℤ
  exchange_rate : Option ℚ
  close_price_usd : Option ℚ
deriving DecidableEq, Repr

/-- One stored `SyncStatus` row for `(stock, daily_price)`. -/
structure SyncStatusRow where
  status : String
  last_sync_date : Option ℤ
  error_message : Option String
deriving DecidableEq, Repr

/-- The per-stock slice of the relational store that the sync engine
touches: its `stock_prices` rows and its `sync_status` row. -/
structure StockDB where
  prices : List PriceRow
  sync_status : Option SyncStatusRow
deriving DecidableEq, Repr

/-- `select max(price_date) where stock_id = …` of `analyze_sync_status`. -/
def lastPriceDate (db : StockDB) : Option ℤ := (db.prices.map (·.price_date)).max?

/-- The three Gap-Filling cases (`SyncCase` enum of the source). -/
inductive SyncCase where
  | case_a_no_data
  | case_b_gap_detected
  | case_c_up_to_date
deriving DecidableEq, Repr

/-- Constant `DEFAULT_HISTORY_DAYS` of src/api/services/stock_service.py. -/
def DEFAULT_HISTORY_DAYS : ℤ := 365

/-- `StockDataService.analyze_sync_status` (src/api/services/stock_service.py,
lines 453-503), with the system date `today` made explicit.
Case A returns `(today − DEFAULT_HISTORY_DAYS, today)`; Case C fires when
`last_price_date ≥ today − 1`; Case B returns `(last + 1, today)`. -/
def analyze_sync_status (today : ℤ) (db : StockDB) :
    SyncCase × Option ℤ × Option ℤ :=
  match lastPriceDate db with
  | none => (SyncCase.case_a_no_data, some (today - DEFAULT_HISTORY_DAYS), some today)
  | some last =>
    if today - 1 ≤ last then
      (SyncCase.case_c_up_to_date, none, none)
    else
      (SyncCase.case_b_gap_detected, some (last + 1), some today)

/-- A placeholder stored row carrying only its date (the fields other than
`price_date` are irrelevant to `analyze_sync_status`). -/
def rowOn (d : ℤ) : PriceRow :=
  { price_date := d, open_price := 0, high_price := 0, low_price := 0
    close_price := 0, volume := 0, exchange_rate := none, close_price_usd := none }

/-! ## Exchange-rate store and the sync-time FX lookup
(src/api/services/stock_service.py, `_get_exchange_rates_for_dates`) -/

/-- Lookup in an association list keyed by date (a Python `dict[date, Decimal]`). -/
def lookupRate (m : List (ℤ × ℚ)) (d : ℤ) : Option ℚ :=
  (m.find? (fun p => p.1 == d)).map (·.2)

/-- `dict` assignment: overwrite the entry for `d` if present, else append. -/
def setRate (m : List (ℤ × ℚ)) (d : ℤ) (r : ℚ) : List (ℤ × ℚ) :=
  if (m.find? (fun p => p.1 == d)).isSome then
    m.map (fun p => if p.1 == d then (d, r) else p)
  else
    m ++ [(d, r)]

/-- The fill step of `_get_exchange_rates_for_dates` for one requested date:
skip dates already present; otherwise carry the rate of the latest key
`≤ d` of the pre-computed `sortedDates`, and if there is none use the
earliest key (the source's `rate_map[sorted_dates[0]]`). -/
def fillRateStep (sortedDates : List ℤ) (m : List (ℤ × ℚ)) (d : ℤ) : List (ℤ × ℚ) :=
  if (m.find? (fun p => p.1 == d)).isSome then m
  else
    match (sortedDates.filter (fun rd => decide (rd ≤ d))).getLast? with
    | some k =>
      match lookupRate m k with
      | some r => m ++ [(d, r)]
      | none => m
    | none =>
      match sortedDates.head? with
      | some k0 =>
        match lookupRate m k0 with
        | some r => m ++ [(d, r)]
        | none => m
      | none => m

/-- The stored rates the query of `_get_exchange_rates_for_dates` loads:
those with `min(dates) ≤ rate_date ≤ max(dates)`. -/
def ratesInSpan (store : List (ℤ × ℚ)) (lo hi : ℤ) : List (ℤ × ℚ) :=
  store.filter (fun p => decide (lo ≤ p.1) && decide (p.1 ≤ hi))

/-- The `rate_map` built from the loaded rows ("keep the latest rate for
each date"). -/
def baseRateMap (store : List (ℤ × ℚ)) (lo hi : ℤ) : List (ℤ × ℚ) :=
  (ratesInSpan store lo hi).foldl (fun m p => setRate m p.1 p.2) []

/-- The `sorted_dates` list of `_get_exchange_rates_for_dates`. -/
def sortedRateDates (store : List (ℤ × ℚ)) (lo hi : ℤ) : List ℤ :=
  ((baseRateMap store lo hi).map (·.1)).insertionSort (· ≤ ·)

/-- `StockDataService._get_exchange_rates_for_dates` (lines 794-855): load the
stored USD/KRW rates between `min(dates)` and `max(dates)`, keep the latest
per day, then fill each requested date without a rate from the nearest
earlier loaded rate, falling back to the earliest loaded rate. -/
def get_exchange_rates_for_dates (store : List (ℤ × ℚ)) (dates : List ℤ) :
    List (ℤ × ℚ) :=
  match dates.min?, dates.max? with
  | some lo, some hi =>
    let base := baseRateMap store lo hi
    if base.isEmpty then base
    else dates.foldl (fillRateStep (sortedRateDates store lo hi)) base
  | _, _ => []

/-! ## Batched upsert (src/api/services/stock_service.py, `_save_prices_batch`) -/

/-- `INSERT … ON CONFLICT (stock_id, price_date) DO UPDATE`: replace the row
for the same date if present, else append. -/
def upsertPrice (rows : List PriceRow) (row : PriceRow) : List PriceRow :=
  if (rows.find? (fun r => r.price_date == row.price_date)).isSome then
    rows.map (fun r => if r.price_date == row.price_date then row else r)
  else
    rows ++ [row]

/-- The stored row built for one provider bar: the bar's fields plus the
denormalised FX columns (`close_price_usd = round(close / fx, 4)` when a
truthy rate is available, else null). -/
def rowOfBar (rates : List (ℤ × ℚ)) (bar : Bar) : PriceRow :=
  let er := lookupRate rates bar.price_date
  let usd :=
    match er with
    | some r => if r == 0 then none else some (round4 (bar.close_price / r))
    | none => none
  { price_date := bar.price_date, open_price := bar.open_price
    high_price := bar.high_price, low_price := bar.low_price
    close_price := bar.close_price, volume := bar.volume
    exchange_rate := er, close_price_usd := usd }

/-- `StockDataService._save_prices_batch` (lines 736-792): upsert every bar
and count it; there is no validation of any kind. -/
def save_prices_batch (rows : List PriceRow) (rates : List (ℤ × ℚ))
    (prices : List Bar) : List PriceRow × ℕ :=
  prices.foldl
    (fun acc bar => (upsertPrice acc.1 (rowOfBar rates bar), acc.2 + 1))
    (rows, 0)

/-! ## Sync-status upsert and the sync procedure -/

/-- `StockDataService._update_sync_status` (lines 857-884): upsert the
`(stock, daily_price)` sync-status row; on conflict a null
`last_sync_date` keeps the stored value (`last_sync_date or
SyncStatus.last_sync_date`), while `error_message` is always overwritten. -/
def update_sync_status (db : StockDB) (status : String)
    (last_sync_date : Option ℤ) (error_message : Option String) : StockDB :=
  match db.sync_status with
  | none =>
    { db with
      sync_status := some
        { status := status, last_sync_date := last_sync_date
          error_message := error_message } }
  | some old =>
    { db with
      sync_status := some
        { status := status
          last_sync_date := last_sync_date.orElse (fun _ => old.last_sync_date)
          error_message := error_message } }

/-- Result record of `sync_stock_prices`. -/
structure SyncResult where
  sync_case : SyncCase
  synced_count : ℕ
  message : Option String
deriving DecidableEq, Repr

/-- Outcome of one `sync_stock_prices` call: the resulting store state, the
returned record, and how many historical provider fetches were performed
(observable external effect). -/
structure SyncOutcome where
  db : StockDB
  result : SyncResult
  fetch_count : ℕ
deriving DecidableEq, Repr

/-- `StockDataService.sync_stock_prices` (lines 505-614) with
`start_date = end_date = None` and `force_full_sync = False`: analyze, stop
on Case C, else mark `syncing`, fetch `[start, end]` from the provider
oracle, and either record a zero-synced completion on an empty series or
upsert the bars (with the FX map for their dates) and record completion. -/
def sync_stock_prices (today : ℤ) (provider : ℤ → ℤ → List Bar)
    (fxStore : List (ℤ × ℚ)) (db : StockDB) : SyncOutcome :=
  match analyze_sync_status today db with
  | (SyncCase.case_c_up_to_date, _, _) =>
    { db := db
      result := { sync_case := SyncCase.case_c_up_to_date, synced_count := 0
                  message := some "Already up to date" }
      fetch_count := 0 }
  | (c, some start_date, some end_date) =>
    let db1 := update_sync_status db "syncing" none none
    let bars := provider start_date end_date
    if bars.isEmpty then
      { db := update_sync_status db1 "completed" (some end_date) none
        result := { sync_case := c, synced_count := 0
                    message := some "No data available for the period" }
        fetch_count := 1 }
    else
      let rates := get_exchange_rates_for_dates fxStore (bars.map (·.price_date))
      let saved := save_prices_batch db1.prices rates bars
      { db := update_sync_status { db1 with prices := saved.1 }
                "completed" (some end_date) none
        result := { sync_case := c, synced_count := saved.2, message := none }
        fetch_count := 1 }
  | (c, _, _) =>
    { db := db
      result := { sync_case := c, synced_count := 0, message := none }
      fetch_count := 0 }

/-- Report returned by `ensure_data_synced` (the fields the claims need). -/
structure EnsureReport where
  sync_case : SyncCase
  needs_sync : Bool
  synced : Bool
deriving DecidableEq, Repr

/-- Modelled from the spec: `StockDataService.ensure_data_synced` is invoked
by `src/api/routers/stocks.py` (`POST /stocks/:symbol/ensure-synced`) and by
`DailyBatchUpdateService._update_single_stock`, but its body is absent from
the provided sources.  Spec §4.6 (Derived read): run `analyze`; if the case
is not UpToDate and `autoSync` is set, invoke `sync`; otherwise only report
the case and the needed range. -/
def ensure_data_synced (today : ℤ) (provider : ℤ → ℤ → List Bar)
    (fxStore : List (ℤ × ℚ)) (db : StockDB) (auto_sync : Bool) :
    StockDB × EnsureReport :=
  match analyze_sync_status today db with
  | (SyncCase.case_c_up_to_date, _, _) =>
    (db, { sync_case := SyncCase.case_c_up_to_date, needs_sync := false
           synced := false })
  | (c, _, _) =>
    if auto_sync then
      let o := sync_stock_prices today provider fxStore db
      (o.db, { sync_case := c, needs_sync := true, synced := true })
    else
      (db, { sync_case := c, needs_sync := true, synced := false })

/-! ## USD-converted history view
(src/backend/app/services/usd_converter.py, `get_usd_converted_history`) -/

/-- One element of a stock's KRW close-price history. -/
structure StockDay where
  date : ℤ
  close : ℚ
deriving DecidableEq, Repr

/-- One row of the USD-converted history (`UsdConvertedData`). -/
structure UsdRow where
  date : ℤ
  krw_close : ℚ
  exchange_rate : ℚ
  usd_close : ℚ
deriving DecidableEq, Repr

/-- The nearest-rate loop of `get_usd_converted_history`: try the offsets in
order and return the first stored rate (`for i in range(1, 5)` over
`stock_day.date - i`). -/
def find_prev_rate (m : List (ℤ × ℚ)) (d : ℤ) : List ℤ → Option ℚ
  | [] => none
  | i :: rest => (lookupRate m (d - i)).orElse (fun _ => find_prev_rate m d rest)

/-- Rate resolution of `get_usd_converted_history`: the exact day's rate if
stored, else the first rate found looking back 1 to 4 days. -/
def resolve_rate (m : List (ℤ × ℚ)) (d : ℤ) : Option ℚ :=
  match lookupRate m d with
  | some r => some r
  | none => find_prev_rate m d [1, 2, 3, 4]

/-- `UsdConverterService.get_usd_converted_history`
(src/backend/app/services/usd_converter.py, lines 24-94), restricted to its
per-bar conversion loop: emit a row exactly for the days whose rate
resolves, with `usd_close = round(close / rate, 4)`. -/
def get_usd_converted_history (exMap : List (ℤ × ℚ)) (hist : List StockDay) :
    List UsdRow :=
  hist.filterMap (fun s =>
    (resolve_rate exMap s.date).map (fun r =>
      { date := s.date, krw_close := s.close, exchange_rate := round2 r
        usd_close := round4 (s.close / r) }))

/-! ## Active-symbol cache (src/api/core/redis.py, `ActiveSymbolsCache`) -/

/-- Redis `ZRANGEBYSCORE` result order: ascending score, ties broken by the
member string in lexicographic order. -/
def pairLe (p q : String × ℤ) : Prop :=
  p.2 < q.2 ∨ (p.2 = q.2 ∧ p.1 ≤ q.1)

instance pairLe.decRel : DecidableRel pairLe := fun p q =>
  inferInstanceAs (Decidable (p.2 < q.2 ∨ (p.2 = q.2 ∧ p.1 ≤ q.1)))

instance pairLe.isTrans : IsTrans (String × ℤ) pairLe where
  trans p q r hpq hqr := by
    rcases hpq with h1 | ⟨h1, h1s⟩ <;> rcases hqr with h2 | ⟨h2, h2s⟩
    · exact Or.inl (lt_trans h1 h2)
    · exact Or.inl (h2 ▸ h1)
    · exact Or.inl (h1 ▸ h2)
    · exact Or.inr ⟨h1.trans h2, le_trans h1s h2s⟩

instance pairLe.isTotal : IsTotal (String × ℤ) pairLe where
  total p q := by
    rcases lt_trichotomy p.2 q.2 with h | h | h
    · exact Or.inl (Or.inl h)
    · rcases le_total p.1 q.1 with hs | hs
      · exact Or.inl (Or.inr ⟨h, hs⟩)
      · exact Or.inr (Or.inr ⟨h.symm, hs⟩)
    · exact Or.inr (Or.inl h)

/-- The eligible members of the sorted set `krxusd:active:symbols`, in the
order `ZRANGEBYSCORE key (now − maxAge) +inf` returns them. -/
def active_symbol_entries (now maxAge : ℤ) (entries : List (String × ℤ)) :
    List (String × ℤ) :=
  (entries.filter (fun p => decide (now - maxAge ≤ p.2))).insertionSort pairLe

/-- `ActiveSymbolsCache.get_active_symbols` (src/api/core/redis.py, lines
380-401): the member strings of the eligible entries, in score order. -/
def get_active_symbols (now maxAge : ℤ) (entries : List (String × ℤ)) :
    List String :=
  (active_symbol_entries now maxAge entries).map (·.1)

/-- `ActiveSymbolsCache.cleanup_stale` (lines 403-414):
`ZREMRANGEBYSCORE key -inf (now − ttl)` removes every member whose score is
at most the cutoff. -/
def cleanup_stale_entries (now ttl : ℤ) (entries : List (String × ℤ)) :
    List (String × ℤ) :=
  entries.filter (fun p => decide (now - ttl < p.2))

/-! ## Scheduler realtime job
(src/api/services/scheduler_service.py, `RealtimeUpdateService` and
`realtime_update_job`) -/

/-- One record of `scheduler:history` (`add_run_history`). -/
structure RunRecord where
  stocks_count : ℕ
  success : Bool
  error : Option String
deriving DecidableEq, Repr

/-- The cache state a realtime tick touches: market-status cache, FX
realtime cache, the active-symbol sorted set, and the run history; plus a
counter of realtime stock-quote provider fetches (the observable external
effect the claims constrain). -/
structure SchedState where
  market_status_cache : Option String
  fx_cache : Option ℚ
  active_symbols : List (String × ℤ)
  quote_fetch_count : ℕ
  history : List RunRecord
deriving DecidableEq, Repr

/-- Return record of `update_active_stocks` (the fields the claims use). -/
structure UpdateStocksResult where
  stocks_updated : ℕ
  skipped : Bool
deriving DecidableEq, Repr

/-- `RealtimeUpdateService.update_active_stocks` (lines 68-141): outside
trading hours, skip with zero updates and no provider call; otherwise fetch
the first `maxBatch` active symbols with `force_refresh=True` (one provider
quote fetch per symbol, failures caught per symbol). -/
def update_active_stocks (trading : Bool) (now maxAge : ℤ) (maxBatch : ℕ)
    (fetchQuote : String → Bool) (st : SchedState) :
    SchedState × UpdateStocksResult :=
  if !trading then
    (st, { stocks_updated := 0, skipped := true })
  else
    let active := get_active_symbols now maxAge st.active_symbols
    if active.isEmpty then
      (st, { stocks_updated := 0, skipped := false })
    else
      let symbols := active.take maxBatch
      ({ st with quote_fetch_count := st.quote_fetch_count + symbols.length },
        { stocks_updated := (symbols.filter fetchQuote).length, skipped := false })

/-- `realtime_update_job` (lines 646-707): write the market-status cache,
update active stocks, refresh the FX realtime cache (24×7), prune stale
active symbols, then append a successful run record; if the FX fetch fails
the exception is caught and a failed record with `stocks_count = 0` is
appended instead. -/
def realtime_update_job (trading : Bool) (marketStatus : String)
    (fxFetch : Option ℚ) (now maxAge ttl : ℤ) (maxBatch : ℕ)
    (fetchQuote : String → Bool) (st : SchedState) : SchedState :=
  let st1 := { st with market_status_cache := some marketStatus }
  let s2 := update_active_stocks trading now maxAge maxBatch fetchQuote st1
  match fxFetch with
  | none =>
    { s2.1 with history := s2.1.history
        ++ [{ stocks_count := 0, success := false
              error := some "exchange update failed" }] }
  | some r =>
    let st3 := { s2.1 with fx_cache := some r }
    let st4 := { st3 with
      active_symbols := cleanup_stale_entries now ttl st3.active_symbols }
    { st4 with history := st4.history
        ++ [{ stocks_count := s2.2.stocks_updated, success := true
              error := none }] }

/-! ## Auxiliary notions for the fill-loop analysis -/

/-- The value the fill loop assigns to a requested date missing from the
loaded map: the rate at the latest loaded date `≤ d`, else the rate at the
earliest loaded date. -/
def fillVal (base : List (ℤ × ℚ)) (sd : List ℤ) (d : ℤ) : Option ℚ :=
  match (sd.filter (fun rd => decide (rd ≤ d))).getLast? with
  | some k => lookupRate base k
  | none =>
    match sd.head? with
    | some k0 => lookupRate base k0
    | none => none

/-- Invariant of the fill loop: every key maps to its loaded rate, or is an
added key carrying its fill value. -/
def RateInv (base : List (ℤ × ℚ)) (sd : List ℤ) (m : List (ℤ × ℚ)) : Prop :=
  ∀ x : ℤ, lookupRate m x = lookupRate base x
    ∨ (lookupRate base x = none ∧
        (lookupRate m x = none ∨ lookupRate m x = fillVal base sd x))

/-! ## Concrete fixtures used by the claim theorems -/

def exProviderWeekend : ℤ → ℤ → List Bar := fun s e =>
  if s ≤ daysFromCivil 2025 3 14 ∧ daysFromCivil 2025 3 14 ≤ e then
    [{ price_date := daysFromCivil 2025 3 14, open_price := 71000
       high_price := 72000, low_price := 70000, close_price := 71500
       volume := 1000 }]
  else []

def exProviderYesterday : ℤ → ℤ → List Bar := fun _ _ =>
  [{ price_date := daysFromCivil 2025 3 16, open_price := 71000
     high_price := 72000, low_price := 70000, close_price := 71500
     volume := 1000 }]

def exBadBar : Bar :=
  { price_date := daysFromCivil 2025 3 14, open_price := 100
    high_price := 90, low_price := 110, close_price := 100, volume := -5 }

def exBadProvider : ℤ → ℤ → List Bar := fun _ _ => [exBadBar]

/-! ## Helper lemmas -/

theorem analyze_shape (today : ℤ) (db : StockDB) (c : SyncCase) (s e : ℤ)
    (h : analyze_sync_status today db = (c, some s, some e)) :
    c ≠ SyncCase.case_c_up_to_date ∧ e = today := by
  unfold analyze_sync_status at h
  cases hl : lastPriceDate db with
  | none =>
    rw [hl] at h
    simp only [Prod.mk.injEq] at h
    obtain ⟨h1, h2, h3⟩ := h
    subst h1
    simp_all
  | some last =>
    rw [hl] at h
    by_cases hle : today - 1 ≤ last
    · simp [hle] at h
    · simp only [hle, if_false] at h
      simp only [Prod.mk.injEq] at h
      obtain ⟨h1, h2, h3⟩ := h
      subst h1
      simp_all

theorem update_sync_status_prices (db : StockDB) (st : String) (ls : Option ℤ) (em : Option String) :
    (update_sync_status db st ls em).prices = db.prices := by
  unfold update_sync_status
  cases db.sync_status <;> rfl

theorem update_twice (db : StockDB) (e : ℤ) :
    (update_sync_status (update_sync_status db "syncing" none none) "completed" (some e) none).sync_status
      = some { status := "completed", last_sync_date := some e, error_message := none } := by
  unfold update_sync_status
  cases db.sync_status <;> rfl

theorem sync_case_c (today : ℤ) (provider : ℤ → ℤ → List Bar)
    (fxStore : List (ℤ × ℚ)) (db : StockDB) (l : ℤ)
    (hl : lastPriceDate db = some l) (hle : today - 1 ≤ l) :
    sync_stock_prices today provider fxStore db
      = { db := db
          result := { sync_case := SyncCase.case_c_up_to_date, synced_count := 0
                      message := some "Already up to date" }
          fetch_count := 0 } := by
  unfold sync_stock_prices analyze_sync_status
  rw [hl]
  simp [hle]

theorem lookupRate_append_some (m l : List (ℤ × ℚ)) (x : ℤ) (r : ℚ)
    (h : lookupRate m x = some r) : lookupRate (m ++ l) x = some r := by
  unfold lookupRate at h ⊢
  rw [List.find?_append]
  cases hm : m.find? (fun p => p.1 == x) with
  | none => rw [hm] at h; cases h
  | some q =>
    rw [hm] at h
    exact h

theorem lookupRate_append_none (m l : List (ℤ × ℚ)) (x : ℤ)
    (h : lookupRate m x = none) : lookupRate (m ++ l) x = lookupRate l x := by
  unfold lookupRate at h ⊢
  rw [List.find?_append]
  cases hm : m.find? (fun p => p.1 == x) with
  | none => rw [Option.none_or]
  | some q => rw [hm] at h; simp at h

theorem lookupRate_singleton (d x : ℤ) (r : ℚ) :
    lookupRate [(d, r)] x = if x = d then some r else none := by
  unfold lookupRate
  rcases eq_or_ne x d with h | h
  · subst h
    simp [List.find?_cons]
  · simp [List.find?_cons, h, Ne.symm h]

theorem lookupRate_isSome_iff (m : List (ℤ × ℚ)) (k : ℤ) :
    (lookupRate m k).isSome ↔ k ∈ m.map (·.1) := by
  unfold lookupRate
  constructor
  · intro h
    cases hm : m.find? (fun p => p.1 == k) with
    | none => rw [hm] at h; cases h
    | some p =>
      have hbeq := List.find?_some hm
      have hpk : p.1 = k := by simpa using hbeq
      exact List.mem_map.mpr ⟨p, List.mem_of_find?_eq_some hm, hpk⟩
  · intro h
    obtain ⟨p, hp, he⟩ := List.mem_map.mp h
    cases hm : m.find? (fun p => p.1 == k) with
    | none =>
      have hnone := List.find?_eq_none.mp hm p hp
      simp [he] at hnone
    | some q => rfl

theorem mem_of_getLastZ (l : List ℤ) (k : ℤ) (h : l.getLast? = some k) : k ∈ l := by
  induction l with
  | nil => cases h
  | cons a t ih =>
    cases t with
    | nil =>
      have : a = k := by
        have : (([a] : List ℤ)).getLast? = some a := rfl
        rw [this] at h
        exact Option.some.inj h
      rw [← this]
      simp
    | cons b t2 =>
      rw [List.getLast?_cons_cons] at h
      exact List.mem_cons_of_mem a (ih h)

theorem sorted_getLast_eq (l : List ℤ) (k : ℤ) (hs : List.Pairwise (· ≤ ·) l)
    (hk : k ∈ l) (hub : ∀ x ∈ l, x ≤ k) : l.getLast? = some k := by
  induction l with
  | nil => cases hk
  | cons a t ih =>
    cases t with
    | nil =>
      have : k = a := by simpa using hk
      rw [this]
      rfl
    | cons b t2 =>
      rw [List.getLast?_cons_cons]
      apply ih ((List.pairwise_cons.mp hs).2)
      · rcases List.mem_cons.mp hk with hka | hkt
        · subst hka
          have hab : k ≤ b := (List.pairwise_cons.mp hs).1 b (by simp)
          have hba : b ≤ k := hub b (by simp)
          have hbk : b = k := le_antisymm hba hab
          rw [← hbk]
          simp
        · exact hkt
      · intro x hx
        exact hub x (List.mem_cons_of_mem a hx)

theorem sorted_head_eq (l : List ℤ) (k : ℤ) (hs : List.Pairwise (· ≤ ·) l)
    (hk : k ∈ l) (hlb : ∀ x ∈ l, k ≤ x) : l.head? = some k := by
  cases l with
  | nil => cases hk
  | cons a t =>
    have h1 : k ≤ a := hlb a (by simp)
    have h2 : a ≤ k := by
      rcases List.mem_cons.mp hk with h | h
      · exact le_of_eq h.symm
      · exact (List.pairwise_cons.mp hs).1 k h
    have : a = k := le_antisymm h2 h1
    rw [← this]
    rfl

theorem lookupRate_isSome_of_find (m : List (ℤ × ℚ)) (d : ℤ)
    (h : (m.find? (fun p => p.1 == d)).isSome) : (lookupRate m d).isSome := by
  unfold lookupRate
  cases hm : m.find? (fun p => p.1 == d) with
  | none => rw [hm] at h; cases h
  | some q => rfl

theorem lookupRate_none_of_find (m : List (ℤ × ℚ)) (d : ℤ)
    (h : ¬ (m.find? (fun p => p.1 == d)).isSome) : lookupRate m d = none := by
  unfold lookupRate
  cases hm : m.find? (fun p => p.1 == d) with
  | none => rfl
  | some q => rw [hm] at h; exact absurd rfl h

theorem append_step_inv (base : List (ℤ × ℚ)) (sd : List ℤ)
    (m : List (ℤ × ℚ)) (d : ℤ) (rk : ℚ)
    (hmd : lookupRate m d = none) (hbd : lookupRate base d = none)
    (hfill : fillVal base sd d = some rk) (hinv : RateInv base sd m) :
    RateInv base sd (m ++ [(d, rk)]) := by
  intro x
  rcases eq_or_ne x d with hxd | hxd
  · subst hxd
    refine Or.inr ⟨hbd, Or.inr ?_⟩
    rw [lookupRate_append_none m _ x hmd, lookupRate_singleton, if_pos rfl, hfill]
  · rcases hxm : lookupRate m x with _ | rx
    · have hnew : lookupRate (m ++ [(d, rk)]) x = none := by
        rw [lookupRate_append_none m _ x hxm, lookupRate_singleton, if_neg hxd]
      rcases hinv x with h | ⟨hb, _⟩
      · rw [hxm] at h
        exact Or.inr ⟨h.symm, Or.inl hnew⟩
      · exact Or.inr ⟨hb, Or.inl hnew⟩
    · have hpres := lookupRate_append_some m [(d, rk)] x rx hxm
      rcases hinv x with h | ⟨hb, ho⟩
      · left
        rw [hpres, ← h, hxm]
      · refine Or.inr ⟨hb, ?_⟩
        rcases ho with ho | ho
        · rw [hxm] at ho; cases ho
        · right
          rw [hpres, ← ho, hxm]

theorem fillRateStep_inv (base : List (ℤ × ℚ)) (sd : List ℤ)
    (m : List (ℤ × ℚ)) (d : ℤ)
    (hmem : ∀ k ∈ sd, (lookupRate base k).isSome) (hinv : RateInv base sd m) :
    RateInv base sd (fillRateStep sd m d)
    ∧ (∀ x r, lookupRate m x = some r → lookupRate (fillRateStep sd m d) x = some r)
    ∧ (sd ≠ [] → (lookupRate (fillRateStep sd m d) d).isSome) := by
  unfold fillRateStep
  by_cases hf : (m.find? (fun p => p.1 == d)).isSome
  · rw [if_pos hf]
    exact ⟨hinv, fun x r h => h, fun _ => lookupRate_isSome_of_find m d hf⟩
  · rw [if_neg hf]
    have hmd : lookupRate m d = none := lookupRate_none_of_find m d hf
    have hbd : lookupRate base d = none := by
      rcases hinv d with h | ⟨hb, _⟩
      · rw [← h]; exact hmd
      · exact hb
    split
    next k hLast =>
      have hkSd : k ∈ sd := (List.mem_filter.mp (mem_of_getLastZ _ _ hLast)).1
      split
      next rk hmk =>
        have hrk : lookupRate base k = some rk := by
          rcases hinv k with h | ⟨hb, _⟩
          · rw [← h]; exact hmk
          · have := hmem k hkSd
            rw [hb] at this
            cases this
        have hfill : fillVal base sd d = some rk := by
          unfold fillVal
          rw [hLast]
          exact hrk
        refine ⟨append_step_inv base sd m d rk hmd hbd hfill hinv, ?_, ?_⟩
        · intro x r h
          exact lookupRate_append_some m _ x r h
        · intro _
          rw [lookupRate_append_none m _ d hmd, lookupRate_singleton, if_pos rfl]
          rfl
      next hmk =>
        exfalso
        rcases hinv k with h | ⟨hb, _⟩
        · have hks := hmem k hkSd
          rw [← h, hmk] at hks
          cases hks
        · have hks := hmem k hkSd
          rw [hb] at hks
          cases hks
    next hLast =>
      split
      next k0 hHead =>
        have hk0Sd : k0 ∈ sd := by
          cases sd with
          | nil => cases hHead
          | cons a t =>
            have ha : a = k0 := Option.some.inj hHead
            rw [← ha]
            simp
        split
        next rk hmk =>
          have hrk : lookupRate base k0 = some rk := by
            rcases hinv k0 with h | ⟨hb, _⟩
            · rw [← h]; exact hmk
            · have := hmem k0 hk0Sd
              rw [hb] at this
              cases this
          have hfill : fillVal base sd d = some rk := by
            unfold fillVal
            rw [hLast, hHead]
            exact hrk
          refine ⟨append_step_inv base sd m d rk hmd hbd hfill hinv, ?_, ?_⟩
          · intro x r h
            exact lookupRate_append_some m _ x r h
          · intro _
            rw [lookupRate_append_none m _ d hmd, lookupRate_singleton, if_pos rfl]
            rfl
        next hmk =>
          exfalso
          rcases hinv k0 with h | ⟨hb, _⟩
          · have hks := hmem k0 hk0Sd
            rw [← h, hmk] at hks
            cases hks
          · have hks := hmem k0 hk0Sd
            rw [hb] at hks
            cases hks
      next hHead =>
        refine ⟨hinv, fun x r h => h, fun hne => ?_⟩
        cases hsd : sd with
        | nil => exact absurd hsd hne
        | cons a t => rw [hsd] at hHead; cases hHead

theorem fold_fill_inv (base : List (ℤ × ℚ)) (sd : List ℤ)
    (hmem : ∀ k ∈ sd, (lookupRate base k).isSome) :
    ∀ (dates : List ℤ) (m : List (ℤ × ℚ)), RateInv base sd m →
      RateInv base sd (dates.foldl (fillRateStep sd) m)
      ∧ (∀ x r, lookupRate m x = some r →
          lookupRate (dates.foldl (fillRateStep sd) m) x = some r)
      ∧ (sd ≠ [] → ∀ d ∈ dates,
          (lookupRate (dates.foldl (fillRateStep sd) m) d).isSome) := by
  intro dates
  induction dates with
  | nil =>
    intro m hm
    exact ⟨hm, fun x r h => h, fun _ d hd => absurd hd (List.not_mem_nil d)⟩
  | cons d ds ih =>
    intro m hm
    obtain ⟨h1, h2, h3⟩ := fillRateStep_inv base sd m d hmem hm
    obtain ⟨g1, g2, g3⟩ := ih (fillRateStep sd m d) h1
    refine ⟨g1, fun x r h => g2 x r (h2 x r h), ?_⟩
    intro hne e he
    rcases List.mem_cons.mp he with he | he
    · subst he
      obtain ⟨r, hr⟩ := Option.isSome_iff_exists.mp (h3 hne)
      rw [List.foldl_cons, g2 e r hr]
      rfl
    · exact g3 hne e he

theorem gerfd_eq (store : List (ℤ × ℚ)) (dates : List ℤ) (lo hi : ℤ)
    (hlo : dates.min? = some lo) (hhi : dates.max? = some hi) :
    get_exchange_rates_for_dates store dates =
      if (baseRateMap store lo hi).isEmpty then baseRateMap store lo hi
      else dates.foldl (fillRateStep (sortedRateDates store lo hi))
        (baseRateMap store lo hi) := by
  unfold get_exchange_rates_for_dates
  rw [hlo, hhi]

theorem upsert_keeps_date (rows : List PriceRow) (row : PriceRow) (d : ℤ)
    (h : ∃ r ∈ rows, r.price_date = d) :
    ∃ r ∈ upsertPrice rows row, r.price_date = d := by
  obtain ⟨r, hr, hd⟩ := h
  unfold upsertPrice
  by_cases hf : (rows.find? (fun r => r.price_date == row.price_date)).isSome
  · simp only [hf, if_true]
    by_cases he : r.price_date == row.price_date
    · refine ⟨row, List.mem_map.mpr ⟨r, hr, by simp [he]⟩, ?_⟩
      have : r.price_date = row.price_date := by simpa using he
      rw [← this, hd]
    · refine ⟨r, List.mem_map.mpr ⟨r, hr, by simp [he]⟩, hd⟩
  · simp only [hf, if_false]
    exact ⟨r, List.mem_append_left _ hr, hd⟩

theorem upsert_adds_date (rows : List PriceRow) (row : PriceRow) :
    ∃ r ∈ upsertPrice rows row, r.price_date = row.price_date := by
  unfold upsertPrice
  by_cases hf : (rows.find? (fun r => r.price_date == row.price_date)).isSome
  · simp only [hf, if_true]
    rw [List.find?_isSome] at hf
    obtain ⟨x, hx, hxe⟩ := hf
    exact ⟨row, List.mem_map.mpr ⟨x, hx, by simp [hxe]⟩, rfl⟩
  · simp only [hf, if_false]
    exact ⟨row, List.mem_append_right _ (by simp), rfl⟩

theorem save_fold_keeps_date (rates : List (ℤ × ℚ)) (bars : List Bar)
    (rs : List PriceRow) (n : ℕ) (d : ℤ) (h : ∃ r ∈ rs, r.price_date = d) :
    ∃ r ∈ (bars.foldl
        (fun acc bar => (upsertPrice acc.1 (rowOfBar rates bar), acc.2 + 1)) (rs, n)).1,
      r.price_date = d := by
  induction bars generalizing rs n with
  | nil => exact h
  | cons b bs ih => exact ih _ _ (upsert_keeps_date rs (rowOfBar rates b) d h)

theorem save_fold_count (rates : List (ℤ × ℚ)) (bars : List Bar)
    (rs : List PriceRow) (n : ℕ) :
    (bars.foldl
        (fun acc bar => (upsertPrice acc.1 (rowOfBar rates bar), acc.2 + 1)) (rs, n)).2
      = n + bars.length := by
  induction bars generalizing rs n with
  | nil => simp
  | cons b bs ih => simp [ih]; omega

theorem save_fold_mem (rates : List (ℤ × ℚ)) (bars : List Bar)
    (rs : List PriceRow) (n : ℕ) (b : Bar) (hb : b ∈ bars) :
    ∃ r ∈ (bars.foldl
        (fun acc bar => (upsertPrice acc.1 (rowOfBar rates bar), acc.2 + 1)) (rs, n)).1,
      r.price_date = b.price_date := by
  induction bars generalizing rs n with
  | nil => cases hb
  | cons x xs ih =>
    simp only [List.foldl_cons]
    rcases List.mem_cons.mp hb with hbx | hbs
    · subst hbx
      exact save_fold_keeps_date rates xs _ _ _
        (by simpa using upsert_adds_date rs (rowOfBar rates b))
    · exact ih _ _ hbs

theorem someOrElse (a : ℚ) (f : Unit → Option ℚ) : (some a).orElse f = some a := rfl

theorem noneOrElse (f : Unit → Option ℚ) : (Option.none).orElse f = f () := rfl

/-! ## Claim theorems -/

/-- Claim C1: with one row saved for 2025-03-14 and today = 2025-03-17,
`analyze_sync_status` does return Case B with start = 2025-03-15, but its
end date is **today** (2025-03-17), not yesterday (2025-03-16) as the claim
and the repository's own tests (`test_analyze_case_b_gap_detected`, which
asserts `end_date == service._get_yesterday()`) require. -/
theorem C1_analyze_gap_end_is_today :
    analyze_sync_status (daysFromCivil 2025 3 17)
        { prices := [rowOn (daysFromCivil 2025 3 14)], sync_status := none }
      = (SyncCase.case_b_gap_detected,
          some (daysFromCivil 2025 3 15), some (daysFromCivil 2025 3 17))
    ∧ daysFromCivil 2025 3 17 ≠ daysFromCivil 2025 3 16 := by
  constructor
  · rfl
  · decide

/-- Claim C2: with no saved rows and today = 2025-03-17, `analyze_sync_status`
returns Case A with start = today − 365 (2024-03-17) and end = today
(2025-03-17): the listing date and the 10-year cap of the claim are ignored
(they appear only in the repository's tests, which import the missing
`MAX_HISTORY_YEARS` and `_calculate_sync_start_date`), and the end is not
yesterday (2025-03-16). -/
theorem C2_analyze_no_data_ignores_listing :
    analyze_sync_status (daysFromCivil 2025 3 17)
        { prices := [], sync_status := none }
      = (SyncCase.case_a_no_data,
          some (daysFromCivil 2024 3 17), some (daysFromCivil 2025 3 17))
    ∧ daysFromCivil 2024 3 17 ≠ daysFromCivil 2015 3 17
    ∧ daysFromCivil 2025 3 17 ≠ daysFromCivil 2025 3 16 := by
  refine ⟨?_, by decide, by decide⟩
  show (SyncCase.case_a_no_data,
      some (daysFromCivil 2025 3 17 - DEFAULT_HISTORY_DAYS),
      some (daysFromCivil 2025 3 17)) = _
  have h : daysFromCivil 2025 3 17 - DEFAULT_HISTORY_DAYS = daysFromCivil 2024 3 17 := by
    decide
  rw [h]

/-- Claim C3 counterexample: with rates requested for 2025-01-01 and
2025-01-31 and a single stored rate dated 2025-01-01, the lookup carries
that rate 30 days forward (far beyond the 4-day window the claim states);
with the single stored rate dated 2025-01-31 instead, the rate is
substituted for the earlier 2025-01-01, a rate dated later than the
requested date. -/
theorem C3_carry_forward_counterexample :
    lookupRate (get_exchange_rates_for_dates
        [(daysFromCivil 2025 1 1, 1300)]
        [daysFromCivil 2025 1 1, daysFromCivil 2025 1 31]) (daysFromCivil 2025 1 31)
      = some 1300
    ∧ (4 : ℤ) < daysFromCivil 2025 1 31 - daysFromCivil 2025 1 1
    ∧ lookupRate (get_exchange_rates_for_dates
        [(daysFromCivil 2025 1 31, 1300)]
        [daysFromCivil 2025 1 1, daysFromCivil 2025 1 31]) (daysFromCivil 2025 1 1)
      = some 1300
    ∧ daysFromCivil 2025 1 1 < daysFromCivil 2025 1 31 := by
  decide

/-- Claim C3 (amended): for a requested date `d` without a stored rate,
`_get_exchange_rates_for_dates` returns the most recent stored rate dated
on or before `d` among the rates loaded for the span
`[min(dates), max(dates)]`, with **no** 4-day limit; when no such earlier
rate exists but the span holds some rate, it substitutes the earliest
loaded rate, which is dated **later** than `d`; it returns absent for `d`
only when the span holds no stored rates at all. -/
theorem C3_carry_forward_amended (store : List (ℤ × ℚ)) (dates : List ℤ) (lo hi d : ℤ)
    (hlo : dates.min? = some lo) (hhi : dates.max? = some hi) (hd : d ∈ dates)
    (hbd : lookupRate (baseRateMap store lo hi) d = none) :
    (baseRateMap store lo hi = [] →
       lookupRate (get_exchange_rates_for_dates store dates) d = none)
    ∧ (∀ k, (lookupRate (baseRateMap store lo hi) k).isSome → k ≤ d →
        (∀ k2, (lookupRate (baseRateMap store lo hi) k2).isSome → k2 ≤ d → k2 ≤ k) →
        lookupRate (get_exchange_rates_for_dates store dates) d
          = lookupRate (baseRateMap store lo hi) k ∧ k < d)
    ∧ (∀ k0, (lookupRate (baseRateMap store lo hi) k0).isSome →
        (∀ k2, (lookupRate (baseRateMap store lo hi) k2).isSome → k0 ≤ k2) →
        (∀ k2, (lookupRate (baseRateMap store lo hi) k2).isSome → d < k2) →
        lookupRate (get_exchange_rates_for_dates store dates) d
          = lookupRate (baseRateMap store lo hi) k0 ∧ d < k0) := by
  have hre := gerfd_eq store dates lo hi hlo hhi
  have hsdsorted : List.Pairwise (· ≤ ·) (sortedRateDates store lo hi) :=
    List.sorted_insertionSort _ _
  have hsdmem : ∀ x, x ∈ sortedRateDates store lo hi
      ↔ (lookupRate (baseRateMap store lo hi) x).isSome := by
    intro x
    unfold sortedRateDates
    rw [(List.perm_insertionSort _ _).mem_iff]
    exact (lookupRate_isSome_iff _ x).symm
  refine ⟨?_, ?_, ?_⟩
  · intro hempty
    rw [hre, hempty]
    rfl
  · intro k hkS hkle hkub
    have hsdne : sortedRateDates store lo hi ≠ [] := by
      intro h
      have hmemk := (hsdmem k).mpr hkS
      rw [h] at hmemk
      cases hmemk
    have hbnil : baseRateMap store lo hi ≠ [] := by
      intro h
      rw [h] at hkS
      simp [lookupRate] at hkS
    have hbne : (baseRateMap store lo hi).isEmpty = false := by
      cases hE : (baseRateMap store lo hi).isEmpty with
      | true => exact absurd (List.isEmpty_iff.mp hE) hbnil
      | false => rfl
    have hmem : ∀ x ∈ sortedRateDates store lo hi,
        (lookupRate (baseRateMap store lo hi) x).isSome :=
      fun x hx => (hsdmem x).mp hx
    obtain ⟨hI, _, hS⟩ := fold_fill_inv (baseRateMap store lo hi) _ hmem dates
      (baseRateMap store lo hi) (fun x => Or.inl rfl)
    have hdS := hS hsdne d hd
    have hfd : lookupRate (dates.foldl (fillRateStep (sortedRateDates store lo hi))
        (baseRateMap store lo hi)) d = fillVal (baseRateMap store lo hi) (sortedRateDates store lo hi) d := by
      rcases hI d with h | ⟨_, ho⟩
      · rw [h, hbd] at hdS; cases hdS
      · rcases ho with ho | ho
        · rw [ho] at hdS; cases hdS
        · exact ho
    have hkd : k < d := by
      rcases lt_or_eq_of_le hkle with h | h
      · exact h
      · rw [h] at hkS; rw [hbd] at hkS; cases hkS
    have hfill : fillVal (baseRateMap store lo hi) (sortedRateDates store lo hi) d
        = lookupRate (baseRateMap store lo hi) k := by
      unfold fillVal
      have hgl : ((sortedRateDates store lo hi).filter
          (fun rd => decide (rd ≤ d))).getLast? = some k := by
        apply sorted_getLast_eq
        · exact List.Pairwise.sublist (List.filter_sublist _) hsdsorted
        · rw [List.mem_filter]
          exact ⟨(hsdmem k).mpr hkS, by simpa using hkle⟩
        · intro x hx
          obtain ⟨hx1, hx2⟩ := List.mem_filter.mp hx
          exact hkub x ((hsdmem x).mp hx1) (by simpa using hx2)
      rw [hgl]
    rw [hre, hbne]
    simp only [Bool.false_eq_true, if_false]
    exact ⟨hfd.trans hfill, hkd⟩
  · intro k0 hk0S hk0lb hdlt
    have hsdne : sortedRateDates store lo hi ≠ [] := by
      intro h
      have hmemk := (hsdmem k0).mpr hk0S
      rw [h] at hmemk
      cases hmemk
    have hbnil : baseRateMap store lo hi ≠ [] := by
      intro h
      rw [h] at hk0S
      simp [lookupRate] at hk0S
    have hbne : (baseRateMap store lo hi).isEmpty = false := by
      cases hE : (baseRateMap store lo hi).isEmpty with
      | true => exact absurd (List.isEmpty_iff.mp hE) hbnil
      | false => rfl
    have hmem : ∀ x ∈ sortedRateDates store lo hi,
        (lookupRate (baseRateMap store lo hi) x).isSome :=
      fun x hx => (hsdmem x).mp hx
    obtain ⟨hI, _, hS⟩ := fold_fill_inv (baseRateMap store lo hi) _ hmem dates
      (baseRateMap store lo hi) (fun x => Or.inl rfl)
    have hdS := hS hsdne d hd
    have hfd : lookupRate (dates.foldl (fillRateStep (sortedRateDates store lo hi))
        (baseRateMap store lo hi)) d = fillVal (baseRateMap store lo hi) (sortedRateDates store lo hi) d := by
      rcases hI d with h | ⟨_, ho⟩
      · rw [h, hbd] at hdS; cases hdS
      · rcases ho with ho | ho
        · rw [ho] at hdS; cases hdS
        · exact ho
    have hfilter : (sortedRateDates store lo hi).filter (fun rd => decide (rd ≤ d)) = [] := by
      rw [List.filter_eq_nil_iff]
      intro a ha
      have := hdlt a ((hsdmem a).mp ha)
      simpa using not_le_of_lt this
    have hfill : fillVal (baseRateMap store lo hi) (sortedRateDates store lo hi) d
        = lookupRate (baseRateMap store lo hi) k0 := by
      unfold fillVal
      rw [hfilter]
      have hhd : (sortedRateDates store lo hi).head? = some k0 := by
        apply sorted_head_eq _ _ hsdsorted ((hsdmem k0).mpr hk0S)
        intro x hx
        exact hk0lb x ((hsdmem x).mp hx)
      rw [hhd]
      rfl
    rw [hre, hbne]
    simp only [Bool.false_eq_true, if_false]
    exact ⟨hfd.trans hfill, hdlt k0 hk0S⟩

/-- Witness for the amended C3 theorem at a concrete input: the stored
rate of day 0 is carried forward to day 30. -/
theorem C3_carry_forward_amended_witness :
    lookupRate (get_exchange_rates_for_dates [((0 : ℤ), (1300 : ℚ))] [0, 30]) 30
      = some 1300
    ∧ (4 : ℤ) < 30 - 0 := by
  have h := (C3_carry_forward_amended [((0 : ℤ), (1300 : ℚ))] [0, 30] 0 30 30
      (by decide) (by decide) (by decide) (by decide)).2.1 0 (by decide) (by decide)
      (fun k2 h1 h2 => by
        have hk := (lookupRate_isSome_iff [((0 : ℤ), (1300 : ℚ))] k2).mp ?_
        · simp at hk
          omega
        · unfold baseRateMap ratesInSpan at h1
          simpa using h1)
  exact ⟨h.1.trans (by decide), by decide⟩

/-- Claim C4 counterexample: today is Monday 2025-03-17 and the provider
has bars only through Friday 2025-03-14.  The first sync completes
successfully (1 bar synced, status completed), yet the immediately
following second call is again `gap_detected`, performs another provider
fetch, and returns `synced_count = 0` — not `up_to_date`. -/
theorem C4_second_sync_counterexample :
    (sync_stock_prices (daysFromCivil 2025 3 17) exProviderWeekend []
        { prices := [], sync_status := none }).result.synced_count = 1
    ∧ (sync_stock_prices (daysFromCivil 2025 3 17) exProviderWeekend []
        { prices := [], sync_status := none }).db.sync_status
        = some { status := "completed"
                 last_sync_date := some (daysFromCivil 2025 3 17)
                 error_message := none }
    ∧ (sync_stock_prices (daysFromCivil 2025 3 17) exProviderWeekend []
        (sync_stock_prices (daysFromCivil 2025 3 17) exProviderWeekend []
          { prices := [], sync_status := none }).db).result.sync_case
        = SyncCase.case_b_gap_detected
    ∧ (sync_stock_prices (daysFromCivil 2025 3 17) exProviderWeekend []
        (sync_stock_prices (daysFromCivil 2025 3 17) exProviderWeekend []
          { prices := [], sync_status := none }).db).fetch_count = 1
    ∧ (sync_stock_prices (daysFromCivil 2025 3 17) exProviderWeekend []
        (sync_stock_prices (daysFromCivil 2025 3 17) exProviderWeekend []
          { prices := [], sync_status := none }).db).result.synced_count = 0 := by
  decide

/-- Claim C4 (amended): an immediately repeated `sync_stock_prices` call
returns `up_to_date` with `synced_count = 0`, performs no provider fetch
and leaves the store untouched, provided the first call left the last
saved price date at `today − 1` or later; otherwise (for example over a
weekend with no fresh bars) the second call re-enters `gap_detected` and
fetches again. -/
theorem C4_second_sync_amended (today : ℤ) (provider : ℤ → ℤ → List Bar)
    (fxStore : List (ℤ × ℚ)) (db : StockDB) (l : ℤ)
    (h1 : lastPriceDate (sync_stock_prices today provider fxStore db).db = some l)
    (h2 : today - 1 ≤ l) :
    sync_stock_prices today provider fxStore
        (sync_stock_prices today provider fxStore db).db
      = { db := (sync_stock_prices today provider fxStore db).db
          result := { sync_case := SyncCase.case_c_up_to_date, synced_count := 0
                      message := some "Already up to date" }
          fetch_count := 0 } :=
  sync_case_c today provider fxStore
    (sync_stock_prices today provider fxStore db).db l h1 h2

/-- Witness for the amended C4 theorem: the provider returns a bar dated
yesterday (2025-03-16), so after the first sync the second call is a
no-op Case C. -/
theorem C4_second_sync_amended_witness :
    sync_stock_prices (daysFromCivil 2025 3 17) exProviderYesterday []
        (sync_stock_prices (daysFromCivil 2025 3 17) exProviderYesterday []
          { prices := [], sync_status := none }).db
      = { db := (sync_stock_prices (daysFromCivil 2025 3 17) exProviderYesterday []
            { prices := [], sync_status := none }).db
          result := { sync_case := SyncCase.case_c_up_to_date, synced_count := 0
                      message := some "Already up to date" }
          fetch_count := 0 } :=
  C4_second_sync_amended (daysFromCivil 2025 3 17) exProviderYesterday []
    { prices := [], sync_status := none }
    (daysFromCivil 2025 3 16) (by decide) (by decide)

/-- Claim C5: whenever `analyze_sync_status` yields a range and the
provider returns an empty series for it, `sync_stock_prices` writes no
price rows, sets the sync status to `completed` with `last_sync_date`
equal to the range's end date, and returns `synced_count = 0` with the
no-data-in-range message instead of an error. -/
theorem C5_empty_series_completes (today : ℤ) (provider : ℤ → ℤ → List Bar)
    (fxStore : List (ℤ × ℚ)) (db : StockDB) (c : SyncCase) (s e : ℤ)
    (ha : analyze_sync_status today db = (c, some s, some e))
    (hp : provider s e = []) :
    (sync_stock_prices today provider fxStore db).db.prices = db.prices
    ∧ (sync_stock_prices today provider fxStore db).db.sync_status
        = some { status := "completed", last_sync_date := some e, error_message := none }
    ∧ (sync_stock_prices today provider fxStore db).result
        = { sync_case := c, synced_count := 0
            message := some "No data available for the period" } := by
  obtain ⟨hc, he⟩ := analyze_shape today db c s e ha
  unfold sync_stock_prices
  rw [ha]
  cases c with
  | case_c_up_to_date => exact absurd rfl hc
  | case_a_no_data =>
    simp only [hp, List.isEmpty_nil, if_true]
    refine ⟨?_, ?_, trivial⟩
    · rw [update_sync_status_prices, update_sync_status_prices]
    · exact update_twice db e
  | case_b_gap_detected =>
    simp only [hp, List.isEmpty_nil, if_true]
    refine ⟨?_, ?_, trivial⟩
    · rw [update_sync_status_prices, update_sync_status_prices]
    · exact update_twice db e

/-- Witness for C5 at a concrete input: one row saved for Friday
2025-03-14, today Monday 2025-03-17, provider empty. -/
theorem C5_empty_series_completes_witness :
    (sync_stock_prices (daysFromCivil 2025 3 17) (fun _ _ => ([] : List Bar)) []
        { prices := [rowOn (daysFromCivil 2025 3 14)], sync_status := none }).db.prices
      = [rowOn (daysFromCivil 2025 3 14)]
    ∧ (sync_stock_prices (daysFromCivil 2025 3 17) (fun _ _ => ([] : List Bar)) []
        { prices := [rowOn (daysFromCivil 2025 3 14)], sync_status := none }).db.sync_status
      = some { status := "completed", last_sync_date := some (daysFromCivil 2025 3 17)
               error_message := none }
    ∧ (sync_stock_prices (daysFromCivil 2025 3 17) (fun _ _ => ([] : List Bar)) []
        { prices := [rowOn (daysFromCivil 2025 3 14)], sync_status := none }).result
      = { sync_case := SyncCase.case_b_gap_detected, synced_count := 0
          message := some "No data available for the period" } :=
  C5_empty_series_completes (daysFromCivil 2025 3 17) (fun _ _ => ([] : List Bar)) []
    { prices := [rowOn (daysFromCivil 2025 3 14)], sync_status := none }
    SyncCase.case_b_gap_detected (daysFromCivil 2025 3 15) (daysFromCivil 2025 3 17)
    (by decide) rfl

/-- Claim C6 counterexample: a provider bar with `high < low` and negative
volume flows through the sync path unchallenged — it is stored verbatim and
counted, violating the claimed stored-row invariant and the claimed
rejection behaviour. -/
theorem C6_integrity_counterexample :
    (sync_stock_prices (daysFromCivil 2025 3 17) exBadProvider []
        { prices := [], sync_status := none }).result.synced_count = 1
    ∧ ∃ r ∈ (sync_stock_prices (daysFromCivil 2025 3 17) exBadProvider []
        { prices := [], sync_status := none }).db.prices,
        r.high_price < r.low_price ∧ r.volume < 0
          ∧ ¬ (r.low_price ≤ r.open_price ∧ r.open_price ≤ r.high_price) := by
  decide

/-- Claim C6 (amended): `_save_prices_batch` performs no integrity
validation whatsoever: every provider bar is upserted (its date is present
among the stored rows afterwards) and counted, so the returned count always
equals the number of input bars, even when a bar violates
`low ≤ open ≤ high` or `volume ≥ 0`. -/
theorem C6_no_validation_amended (rows : List PriceRow) (rates : List (ℤ × ℚ)) (bars : List Bar) :
    (save_prices_batch rows rates bars).2 = bars.length
    ∧ ∀ b ∈ bars, ∃ r ∈ (save_prices_batch rows rates bars).1,
        r.price_date = b.price_date := by
  constructor
  · unfold save_prices_batch
    rw [save_fold_count]
    omega
  · intro b hb
    exact save_fold_mem rates bars rows 0 b hb

/-- Witness for the amended C6 theorem at a concrete input. -/
theorem C6_no_validation_amended_witness :
    (save_prices_batch [] [] [exBadBar]).2 = [exBadBar].length
    ∧ ∃ r ∈ (save_prices_batch [] [] [exBadBar]).1,
        r.price_date = exBadBar.price_date :=
  ⟨(C6_no_validation_amended [] [] [exBadBar]).1,
    (C6_no_validation_amended [] [] [exBadBar]).2 exBadBar (by simp)⟩

/-- Claim C7: `get_usd_converted_history` emits a row for a bar exactly
when an FX rate resolves for the bar's date — the stored rate of the day
itself or, failing that, the most recent stored rate at most 4 days
earlier — skips the date otherwise, and the emitted row carries
`usd_close = round(krw_close / fx, 4)`. -/
theorem C7_usd_history_rows (exMap : List (ℤ × ℚ)) (hist : List StockDay) (s : StockDay)
    (hs : s ∈ hist) :
    (∀ r, resolve_rate exMap s.date = some r →
        ({ date := s.date, krw_close := s.close, exchange_rate := round2 r
           usd_close := round4 (s.close / r) } : UsdRow)
          ∈ get_usd_converted_history exMap hist)
    ∧ (resolve_rate exMap s.date = none →
        ∀ c ∈ get_usd_converted_history exMap hist, c.date ≠ s.date)
    ∧ (∀ r, lookupRate exMap s.date = none → resolve_rate exMap s.date = some r →
        ∃ i : ℤ, 1 ≤ i ∧ i ≤ 4 ∧ lookupRate exMap (s.date - i) = some r
          ∧ ∀ j : ℤ, 1 ≤ j → j < i → lookupRate exMap (s.date - j) = none) := by
  refine ⟨?_, ?_, ?_⟩
  · intro r hr
    unfold get_usd_converted_history
    exact List.mem_filterMap.mpr ⟨s, hs, by rw [hr]; rfl⟩
  · intro hn c hc hcd
    unfold get_usd_converted_history at hc
    obtain ⟨a, ha, heq⟩ := List.mem_filterMap.mp hc
    cases hra : resolve_rate exMap a.date with
    | none => rw [hra] at heq; simp at heq
    | some r =>
      rw [hra] at heq
      rw [Option.map_some'] at heq
      have hda : c.date = a.date := by
        have hinj := Option.some.inj heq
        rw [← hinj]
      rw [hda] at hcd
      rw [hcd] at hra
      rw [hn] at hra
      cases hra
  · intro r hl hr
    unfold resolve_rate at hr
    rw [hl] at hr
    simp only [find_prev_rate] at hr
    cases h1 : lookupRate exMap (s.date - 1) with
    | some r1 =>
      rw [h1] at hr
      rw [someOrElse] at hr
      exact ⟨1, by omega, by omega, by rw [h1, hr], fun j hj1 hj2 => absurd hj2 (by omega)⟩
    | none =>
      rw [h1] at hr
      rw [noneOrElse] at hr
      cases h2 : lookupRate exMap (s.date - 2) with
      | some r2 =>
        rw [h2] at hr
        rw [someOrElse] at hr
        refine ⟨2, by omega, by omega, by rw [h2, hr], ?_⟩
        intro j hj1 hj2
        have hj : j = 1 := by omega
        rw [hj]
        exact h1
      | none =>
        rw [h2] at hr
        rw [noneOrElse] at hr
        cases h3 : lookupRate exMap (s.date - 3) with
        | some r3 =>
          rw [h3] at hr
          rw [someOrElse] at hr
          refine ⟨3, by omega, by omega, by rw [h3, hr], ?_⟩
          intro j hj1 hj2
          have hj : j = 1 ∨ j = 2 := by omega
          rcases hj with hj | hj <;> rw [hj]
          · exact h1
          · exact h2
        | none =>
          rw [h3] at hr
          rw [noneOrElse] at hr
          cases h4 : lookupRate exMap (s.date - 4) with
          | some r4 =>
            rw [h4] at hr
            rw [someOrElse] at hr
            refine ⟨4, by omega, by omega, by rw [h4, hr], ?_⟩
            intro j hj1 hj2
            have hj : j = 1 ∨ j = 2 ∨ j = 3 := by omega
            rcases hj with hj | hj | hj <;> rw [hj]
            · exact h1
            · exact h2
            · exact h3
          | none =>
            rw [h4] at hr
            rw [noneOrElse] at hr
            cases hr

/-- Witness for C7 at a concrete input: the rate of day 10 is carried
forward 4 days to the bar of day 14, and 72000 / 1000 rounds to 72. -/
theorem C7_usd_history_rows_witness :
    ({ date := 14, krw_close := 72000, exchange_rate := round2 1000
       usd_close := round4 (72000 / 1000) } : UsdRow)
        ∈ get_usd_converted_history [(10, 1000)] [{ date := 14, close := 72000 }]
    ∧ round4 ((72000 : ℚ) / 1000) = 72 ∧ round2 (1000 : ℚ) = 1000 := by
  refine ⟨(C7_usd_history_rows [(10, 1000)] [{ date := 14, close := 72000 }]
      { date := 14, close := 72000 } (by simp)).1 1000 (by decide), ?_, ?_⟩
  · norm_num [round4, roundHalfEven]
  · norm_num [round2, roundHalfEven]

/-- Claim C8: a realtime tick that runs while `is_trading_time` is false
(and whose FX fetch succeeds) still writes the market-status cache and
refreshes the FX realtime cache, performs no stock-quote provider fetch,
and appends a run-history record with `stocks_count = 0` and
`success = true`. -/
theorem C8_offhours_tick (marketStatus : String) (fxFetch : Option ℚ) (r : ℚ)
    (now maxAge ttl : ℤ) (maxBatch : ℕ) (fetchQuote : String → Bool) (st : SchedState)
    (hfx : fxFetch = some r) :
    (realtime_update_job false marketStatus fxFetch now maxAge ttl maxBatch fetchQuote st).market_status_cache
        = some marketStatus
    ∧ (realtime_update_job false marketStatus fxFetch now maxAge ttl maxBatch fetchQuote st).fx_cache = some r
    ∧ (realtime_update_job false marketStatus fxFetch now maxAge ttl maxBatch fetchQuote st).quote_fetch_count
        = st.quote_fetch_count
    ∧ (realtime_update_job false marketStatus fxFetch now maxAge ttl maxBatch fetchQuote st).history
        = st.history ++ [{ stocks_count := 0, success := true, error := none }] := by
  subst hfx
  simp [realtime_update_job, update_active_stocks]

/-- Witness for C8 at a concrete off-hours tick. -/
theorem C8_offhours_tick_witness :
    (realtime_update_job false "market_closed" (some 1350) 100 180 180 20
        (fun _ => true) { market_status_cache := none, fx_cache := none
                          active_symbols := [("A", 3)], quote_fetch_count := 5
                          history := [] }).market_status_cache = some "market_closed"
    ∧ (realtime_update_job false "market_closed" (some 1350) 100 180 180 20
        (fun _ => true) { market_status_cache := none, fx_cache := none
                          active_symbols := [("A", 3)], quote_fetch_count := 5
                          history := [] }).fx_cache = some 1350
    ∧ (realtime_update_job false "market_closed" (some 1350) 100 180 180 20
        (fun _ => true) { market_status_cache := none, fx_cache := none
                          active_symbols := [("A", 3)], quote_fetch_count := 5
                          history := [] }).quote_fetch_count = 5
    ∧ (realtime_update_job false "market_closed" (some 1350) 100 180 180 20
        (fun _ => true) { market_status_cache := none, fx_cache := none
                          active_symbols := [("A", 3)], quote_fetch_count := 5
                          history := [] }).history
      = [] ++ [{ stocks_count := 0, success := true, error := none }] :=
  C8_offhours_tick "market_closed" (some 1350) 1350 100 180 180 20 (fun _ => true)
    { market_status_cache := none, fx_cache := none, active_symbols := [("A", 3)]
      quote_fetch_count := 5, history := [] } rfl

/-- Claim C9: `ensure_data_synced` called with `auto_sync = false` only
runs the analysis and reports; it leaves both the stock-price rows and the
sync-status row of the store unchanged.  (`ensure_data_synced` itself is
modelled from the spec, its body being absent from the provided sources.) -/
theorem C9_ensure_no_autosync_frame (today : ℤ) (provider : ℤ → ℤ → List Bar)
    (fxStore : List (ℤ × ℚ)) (db : StockDB) :
    (ensure_data_synced today provider fxStore db false).1.prices = db.prices
    ∧ (ensure_data_synced today provider fxStore db false).1.sync_status = db.sync_status := by
  unfold ensure_data_synced
  rcases ha : analyze_sync_status today db with ⟨c, s, e⟩
  cases c <;> simp

/-- Claim C10: `get_active_symbols` returns exactly the entries whose
last-touched score is within `maxAge`, sorted ascending by score (Redis
`ZRANGEBYSCORE` order), so truncating to the first `maxBatch` entries keeps
the least-recently-touched eligible symbols: every kept entry's score is at
most every dropped entry's score. -/
theorem C10_active_symbols_sorted (now maxAge : ℤ) (entries : List (String × ℤ)) (maxBatch : ℕ) :
    get_active_symbols now maxAge entries
        = (active_symbol_entries now maxAge entries).map (·.1)
    ∧ List.Pairwise (fun p q : String × ℤ => p.2 ≤ q.2)
        (active_symbol_entries now maxAge entries)
    ∧ (∀ p : String × ℤ,
        p ∈ active_symbol_entries now maxAge entries ↔ p ∈ entries ∧ now - maxAge ≤ p.2)
    ∧ (∀ p ∈ (active_symbol_entries now maxAge entries).take maxBatch,
       ∀ q ∈ (active_symbol_entries now maxAge entries).drop maxBatch, p.2 ≤ q.2) := by
  have hsorted : List.Pairwise pairLe (active_symbol_entries now maxAge entries) :=
    List.sorted_insertionSort pairLe _
  have hpair : List.Pairwise (fun p q : String × ℤ => p.2 ≤ q.2)
      (active_symbol_entries now maxAge entries) := by
    refine hsorted.imp ?_
    intro p q h
    rcases h with h | ⟨h, _⟩
    · exact le_of_lt h
    · exact le_of_eq h
  refine ⟨rfl, hpair, ?_, ?_⟩
  · intro p
    unfold active_symbol_entries
    rw [(List.perm_insertionSort pairLe _).mem_iff, List.mem_filter]
    simp
  · intro p hp q hq
    have := List.take_append_drop maxBatch (active_symbol_entries now maxAge entries)
    rw [← this] at hpair
    exact (List.pairwise_append.mp hpair).2.2 p hp q hq

/-- Witness for C10 at a concrete input: with two eligible symbols and
`maxBatch = 1`, the kept entry is the least recently touched one. -/
theorem C10_active_symbols_sorted_witness :
    ("B", (5 : ℤ)) ∈ (active_symbol_entries 10 180 [("A", 10), ("B", 5)]).take 1
    ∧ ("A", (10 : ℤ)) ∈ (active_symbol_entries 10 180 [("A", 10), ("B", 5)]).drop 1
    ∧ ("B", (5 : ℤ)).2 ≤ ("A", (10 : ℤ)).2 :=
  ⟨by decide, by decide,
    (C10_active_symbols_sorted 10 180 [("A", 10), ("B", 5)] 1).2.2.2
      ("B", (5 : ℤ)) (by decide) ("A", (10 : ℤ)) (by decide)⟩
